import Mathlib

/-!
# Tempo Type-0x76 transaction core: a shallow embedding

This file embeds the transaction core of the `tempo-go` repository
(the `pkg/transaction` package) in Lean 4 and proves the spec's claims
about it.

The repository sources under `src/` contain the fluent `Builder`
(`NewBuilder`, the `Set*`/`Add*` methods, `Build`, `BuildAndValidate`)
and the sentinel error set; those are translated directly from the Go
code.  The `Tx` data model's `Validate` method, the codec
(`Serialize`/`Deserialize` and the underlying byte encoding), and the
signing protocol (`SigningHash`, `SignTransaction`,
`AddFeePayerSignature`) are exercised by the repository's tests and
documentation but their defining files are not under `src/`; they are
modelled from the specification (each such definition carries a
`Modelled from the spec` doc comment).

Go conventions are mapped as follows: `*big.Int` fields (which may be
`nil`) become `Option Nat` (the spec restricts every such field to
non-negative values); `uint64` fields become `Nat`; `common.Address`
becomes a list of byte values (well-formedness requires length 20);
`[]byte` becomes `List Nat`; Go `error` results become `Except TxError`.
Struct field names keep the Go source's capitalization.
-/

namespace Tempo

/-- A byte string, modelled as a list of naturals (each < 256 where
well-formed). -/
abbrev Bytes := List Nat

/-- The flat, closed set of sentinel errors of the transaction core
(from `pkg/transaction/errors.go` and the `signer` package). -/
inductive TxError where
  | noSignature
  | noFeePayerSignature
  | missingSenderSignature
  | invalidTransaction
  | invalidTransactionType
  | invalidPrivateKey
deriving DecidableEq, Repr

/-- An ECDSA signature: `R`, `S` (32-byte big-endian integers) and the
`YParity` recovery bit. -/
structure Sig where
  R : Nat
  S : Nat
  YParity : Nat
deriving DecidableEq, Repr

/-- One unit of execution within the batch.  `To = none` denotes
contract creation; `Value` is a `*big.Int` in Go and hence may be
absent. -/
structure Call where
  To : Option Bytes
  Value : Option Nat
  Data : Bytes
deriving DecidableEq, Repr

/-- One access-list entry: an address plus an ordered sequence of
32-byte storage keys. -/
structure AccessTuple where
  Address : Bytes
  StorageKeys : List Bytes
deriving DecidableEq, Repr

/-- The Type-0x76 transaction entity.  Field-for-field translation of
the Go `Tx` struct described by the spec's data model: `Option`-valued
fields are `*big.Int` (or optional signatures) in Go, `Nat`-valued
fields are `uint64`. -/
structure Tx where
  ChainID : Option Nat
  Nonce : Nat
  NonceKey : Option Nat
  MaxPriorityFeePerGas : Option Nat
  MaxFeePerGas : Option Nat
  Gas : Nat
  FeeToken : Bytes
  Calls : List Call
  AccessList : List AccessTuple
  ValidAfter : Nat
  ValidBefore : Nat
  Signature : Option Sig
  FeePayerSignature : Option Sig
deriving DecidableEq, Repr

/-- Modelled from the spec: the documented default `nonceKey` constant
(the constant's defining file is not under `src/`; the spec fixes the
default to zero). -/
def DefaultNonceKey : Nat := 0

/-- The all-zero 20-byte address: Go's `common.Address` zero value,
which denotes the native gas token when used as `feeToken`. -/
def zeroAddress : Bytes := List.replicate 20 0

/-- The builder holds a transaction under construction
(from `Builder` in the Go source). -/
structure Builder where
  tx : Tx
deriving DecidableEq, Repr

/-- `NewBuilder` from the Go source: a fresh `Tx` with the given chain
ID, both fee fields initialized to zero, `NonceKey` set to the default
constant, and every other field at its Go zero value. -/
def NewBuilder (chainID : Option Nat) : Builder :=
  { tx :=
    { ChainID := chainID
      Nonce := 0
      NonceKey := some DefaultNonceKey
      MaxPriorityFeePerGas := some 0
      MaxFeePerGas := some 0
      Gas := 0
      FeeToken := zeroAddress
      Calls := []
      AccessList := []
      ValidAfter := 0
      ValidBefore := 0
      Signature := none
      FeePayerSignature := none } }

/-- `SetGas` from the Go source. -/
def SetGas (b : Builder) (gas : Nat) : Builder :=
  { b with tx := { b.tx with Gas := gas } }

/-- `SetMaxFeePerGas` from the Go source: stores the (possibly nil)
argument exactly as given. -/
def SetMaxFeePerGas (b : Builder) (maxFee : Option Nat) : Builder :=
  { b with tx := { b.tx with MaxFeePerGas := maxFee } }

/-- `SetMaxPriorityFeePerGas` from the Go source. -/
def SetMaxPriorityFeePerGas (b : Builder) (maxPriorityFee : Option Nat) : Builder :=
  { b with tx := { b.tx with MaxPriorityFeePerGas := maxPriorityFee } }

/-- `SetNonce` from the Go source. -/
def SetNonce (b : Builder) (nonce : Nat) : Builder :=
  { b with tx := { b.tx with Nonce := nonce } }

/-- `SetNonceKey` from the Go source: stores the (possibly nil)
argument exactly as given. -/
def SetNonceKey (b : Builder) (nonceKey : Option Nat) : Builder :=
  { b with tx := { b.tx with NonceKey := nonceKey } }

/-- `SetValidBefore` from the Go source. -/
def SetValidBefore (b : Builder) (validBefore : Nat) : Builder :=
  { b with tx := { b.tx with ValidBefore := validBefore } }

/-- `SetValidAfter` from the Go source. -/
def SetValidAfter (b : Builder) (validAfter : Nat) : Builder :=
  { b with tx := { b.tx with ValidAfter := validAfter } }

/-- `SetFeeToken` from the Go source. -/
def SetFeeToken (b : Builder) (token : Bytes) : Builder :=
  { b with tx := { b.tx with FeeToken := token } }

/-- `AddCall` from the Go source: a nil value defaults to zero, nil
data defaults to the empty byte string, and the stored `To` address is
always present (Go takes the address by value and stores a pointer to
its copy). -/
def AddCall (b : Builder) (toAddr : Bytes) (value : Option Nat) (data : Option Bytes) :
    Builder :=
  { b with tx := { b.tx with Calls := b.tx.Calls ++
      [{ To := some toAddr, Value := some (value.getD 0), Data := data.getD [] }] } }

/-- `AddContractCreation` from the Go source: like `AddCall` but the
stored `To` is nil. -/
def AddContractCreation (b : Builder) (value : Option Nat) (data : Option Bytes) : Builder :=
  { b with tx := { b.tx with Calls := b.tx.Calls ++
      [{ To := none, Value := some (value.getD 0), Data := data.getD [] }] } }

/-- `AddAccessListEntry` from the Go source: appends one tuple, storage
keys stored as given. -/
def AddAccessListEntry (b : Builder) (address : Bytes) (storageKeys : List Bytes) : Builder :=
  { b with tx := { b.tx with AccessList := b.tx.AccessList ++
      [{ Address := address, StorageKeys := storageKeys }] } }

/-- `Build` from the Go source: returns the accumulated transaction
unconditionally. -/
def Build (b : Builder) : Tx := b.tx

/-- Modelled from the spec: the `Validate` method of `Tx` (its defining
file is not under `src/`; the check list, order, and single
`InvalidTransaction` error kind follow spec section 4.3, corroborated by
`TestTransaction_Validate`): `chainID` not null and > 0, `gas` > 0,
`calls` non-empty, every call's `value` not null, `nonceKey` not null,
in this order, every failure being `InvalidTransaction`. -/
def Validate (tx : Tx) : Except TxError Unit :=
  match tx.ChainID with
  | none => .error .invalidTransaction
  | some c =>
    if c = 0 then .error .invalidTransaction
    else if tx.Gas = 0 then .error .invalidTransaction
    else if tx.Calls = [] then .error .invalidTransaction
    else if tx.Calls.any (fun cl => cl.Value = none) then .error .invalidTransaction
    else if tx.NonceKey = none then .error .invalidTransaction
    else .ok ()

/-- `BuildAndValidate` from the Go source: validates the accumulated
transaction, propagating a validation error and returning no `Tx` on
failure. -/
def BuildAndValidate (b : Builder) : Except TxError Tx :=
  match Validate b.tx with
  | .error e => .error e
  | .ok _ => .ok b.tx

/-! ## Codec

Modelled from the spec (section 4.4): the codec's defining file is not
under `src/`.  The spec fixes: a single leading envelope-type byte
`0x76`; a fixed field order (chainID, nonce, nonceKey,
maxPriorityFeePerGas, maxFeePerGas, gas, feeToken, calls, accessList,
validAfter, validBefore, then the optional sender signature, then the
optional fee-payer signature); every integer encoded as its minimal
big-endian byte representation inside a length-prefixed field;
addresses exactly 20 bytes; storage keys and signature components `r`,
`s` exactly 32 bytes; `yParity` one byte; each variable-length sequence
length-delimited; optional trailing signatures present exactly when
trailing bytes remain.  Decoding rejects a wrong leading byte with
`InvalidTransactionType` and truncation, malformed length prefixes,
non-minimal integers, and out-of-range integers with
`InvalidTransaction`. -/

/-- Little-endian base-256 digits of `n`, computed with explicit fuel
(structural recursion keeps the definition kernel-evaluable). -/
def leBytes : Nat → Nat → Bytes
  | 0, _ => []
  | fuel + 1, n => if n = 0 then [] else n % 256 :: leBytes fuel (n / 256)

/-- Minimal big-endian byte representation of `n` (empty for zero). -/
def beBytes (n : Nat) : Bytes := (leBytes n n).reverse

/-- The numeric value of a big-endian byte string. -/
def beVal (bs : Bytes) : Nat := bs.foldl (fun a b => 256 * a + b) 0

/-- `n` as exactly `w` big-endian bytes, zero-padded on the left. -/
def bePad (w n : Nat) : Bytes := List.replicate (w - (beBytes n).length) 0 ++ beBytes n

/-- A length-prefixed minimal big-endian integer field. -/
def encNat (n : Nat) : Bytes := (beBytes n).length :: beBytes n

/-- A length-prefixed raw byte-string field. -/
def encBytes (bs : Bytes) : Bytes := bs.length :: bs

/-- An optional 20-byte address: a one-byte presence marker, then the
address when present. -/
def encOptAddr : Option Bytes → Bytes
  | none => [0]
  | some a => 1 :: a

/-- One call: to-or-absence marker, value, data. -/
def encCall (c : Call) : Bytes :=
  encOptAddr c.To ++ encNat (c.Value.getD 0) ++ encBytes c.Data

/-- One access-list tuple: address, then count-prefixed 32-byte keys. -/
def encAccess (a : AccessTuple) : Bytes :=
  a.Address ++ a.StorageKeys.length :: a.StorageKeys.flatten

/-- A count-prefixed sequence of encoded items. -/
def encList (f : α → Bytes) (l : List α) : Bytes :=
  l.length :: (l.map f).flatten

/-- A signature: `r` and `s` as exactly 32 big-endian bytes each, then
the one-byte `yParity`. -/
def encSig (σ : Sig) : Bytes := bePad 32 σ.R ++ bePad 32 σ.S ++ [σ.YParity]

/-- An optional trailing signature: absent encodes to nothing. -/
def encOptSig : Option Sig → Bytes
  | none => []
  | some σ => encSig σ

/-- The envelope type tag `0x76`. -/
def txType : Nat := 0x76

/-- The mandatory fixed-order field sequence of the encoding (all
fields except the type byte and the optional trailing signatures). -/
def encMand (tx : Tx) : Bytes :=
  encNat (tx.ChainID.getD 0) ++ encNat tx.Nonce ++ encNat (tx.NonceKey.getD 0) ++
    encNat (tx.MaxPriorityFeePerGas.getD 0) ++ encNat (tx.MaxFeePerGas.getD 0) ++
    encNat tx.Gas ++ tx.FeeToken ++ encList encCall tx.Calls ++
    encList encAccess tx.AccessList ++ encNat tx.ValidAfter ++ encNat tx.ValidBefore

/-- Everything after the type byte: the mandatory fields, then the
optional trailing signatures. -/
def encBody (tx : Tx) : Bytes :=
  encMand tx ++ (encOptSig tx.Signature ++ encOptSig tx.FeePayerSignature)

/-- The canonical encoding of a transaction: the type byte followed by
the fixed-order field sequence and the optional trailing signatures. -/
def encodeTx (tx : Tx) : Bytes := txType :: encBody tx

/-- A parser over byte strings: either an error or a value and the
unconsumed remainder. -/
abbrev Parser (α : Type) := Bytes → Except TxError (α × Bytes)

/-- Sequencing of parsers, propagating errors. -/
def pbind (p : Parser α) (f : α → Parser β) : Parser β := fun s =>
  match p s with
  | .error e => .error e
  | .ok (a, r) => f a r

/-- Read exactly `n` raw bytes. -/
def pBytes (n : Nat) : Parser Bytes := fun s =>
  if n ≤ s.length then .ok (s.take n, s.drop n) else .error .invalidTransaction

/-- Read a length-prefixed minimal big-endian integer, rejecting a
truncated payload or a non-minimal (leading-zero) representation. -/
def pNat : Parser Nat := fun s =>
  match s with
  | [] => .error .invalidTransaction
  | L :: r =>
    if L ≤ r.length then
      if (r.take L).head? = some 0 then .error .invalidTransaction
      else .ok (beVal (r.take L), r.drop L)
    else .error .invalidTransaction

/-- Read a length-prefixed integer that must fit a `uint64`. -/
def pU64 : Parser Nat := fun s =>
  match pNat s with
  | .error e => .error e
  | .ok (v, r) => if v < 2 ^ 64 then .ok (v, r) else .error .invalidTransaction

/-- Read a length-prefixed raw byte-string field. -/
def pData : Parser Bytes := fun s =>
  match s with
  | [] => .error .invalidTransaction
  | L :: r => if L ≤ r.length then .ok (r.take L, r.drop L) else .error .invalidTransaction

/-- Read an optional address: marker byte `0` for absent, `1` plus 20
bytes for present. -/
def pOptAddr : Parser (Option Bytes) := fun s =>
  match s with
  | [] => .error .invalidTransaction
  | m :: r =>
    if m = 0 then .ok (none, r)
    else if m = 1 then (pbind (pBytes 20) (fun a => fun r' => .ok (some a, r'))) r
    else .error .invalidTransaction

/-- Read one call. -/
def pCall : Parser Call :=
  pbind pOptAddr fun toAddr =>
  pbind pNat fun v =>
  pbind pData fun d =>
  fun s => .ok ({ To := toAddr, Value := some v, Data := d }, s)

/-- Read `n` consecutive items. -/
def pMany (p : Parser α) : Nat → Parser (List α)
  | 0 => fun s => .ok ([], s)
  | n + 1 =>
    pbind p fun a =>
    pbind (pMany p n) fun as =>
    fun s => .ok (a :: as, s)

/-- Read a count-prefixed sequence. -/
def pList (p : Parser α) : Parser (List α) := fun s =>
  match s with
  | [] => .error .invalidTransaction
  | n :: r => pMany p n r

/-- Read one access-list tuple. -/
def pAccess : Parser AccessTuple :=
  pbind (pBytes 20) fun addr =>
  pbind (pList (pBytes 32)) fun keys =>
  fun s => .ok ({ Address := addr, StorageKeys := keys }, s)

/-- Read one signature: 32 bytes `r`, 32 bytes `s`, one byte `yParity`
(which must be 0 or 1). -/
def pSig : Parser Sig :=
  pbind (pBytes 32) fun rb =>
  pbind (pBytes 32) fun sb =>
  fun s =>
    match s with
    | [] => .error .invalidTransaction
    | y :: r =>
      if y < 2 then .ok ({ R := beVal rb, S := beVal sb, YParity := y }, r)
      else .error .invalidTransaction

/-- Read the optional trailing signatures: their presence is indicated
solely by bytes remaining after the fixed fields, and the input must be
exhausted afterwards. -/
def pSigs : Parser (Option Sig × Option Sig) := fun s =>
  if s = [] then .ok ((none, none), [])
  else
    match pSig s with
    | .error e => .error e
    | .ok (σ, r) =>
      if r = [] then .ok ((some σ, none), [])
      else
        match pSig r with
        | .error e => .error e
        | .ok (φ, r') =>
          if r' = [] then .ok ((some σ, some φ), [])
          else .error .invalidTransaction

/-- Parse the field sequence after the type byte and rebuild the
transaction. -/
def pTx : Parser Tx :=
  pbind pNat fun chainID =>
  pbind pU64 fun nonce =>
  pbind pNat fun nonceKey =>
  pbind pNat fun maxPriorityFee =>
  pbind pNat fun maxFee =>
  pbind pU64 fun gas =>
  pbind (pBytes 20) fun feeToken =>
  pbind (pList pCall) fun calls =>
  pbind (pList pAccess) fun accessList =>
  pbind pU64 fun validAfter =>
  pbind pU64 fun validBefore =>
  pbind pSigs fun sigs =>
  fun s => .ok (
    { ChainID := some chainID
      Nonce := nonce
      NonceKey := some nonceKey
      MaxPriorityFeePerGas := some maxPriorityFee
      MaxFeePerGas := some maxFee
      Gas := gas
      FeeToken := feeToken
      Calls := calls
      AccessList := accessList
      ValidAfter := validAfter
      ValidBefore := validBefore
      Signature := sigs.1
      FeePayerSignature := sigs.2 }, s)

/-- Decode a byte string: check the envelope type byte, then parse the
field sequence (which consumes the whole input). -/
def decodeTx (s : Bytes) : Except TxError Tx :=
  match s with
  | [] => .error .invalidTransaction
  | b :: r =>
    if b = txType then
      match pTx r with
      | .error e => .error e
      | .ok (tx, _) => .ok tx
    else .error .invalidTransactionType

/-- Modelled from the spec: `Serialize` (its defining file is not under
`src/`) requires a sender signature, failing with `NoSignature`
otherwise, and emits the codec's canonical byte string. -/
def Serialize (tx : Tx) : Except TxError Bytes :=
  match tx.Signature with
  | none => .error .noSignature
  | some _ => .ok (encodeTx tx)

/-- Modelled from the spec: `Deserialize` codec-decodes the byte string
and reconstructs signature presence from the trailing sections (the
hex-string layer, a bijective reading of `0x`-prefixed hex into bytes,
is elided). -/
def Deserialize (s : Bytes) : Except TxError Tx := decodeTx s

/-! ## Signing protocol

Modelled from the spec (section 4.5): the signing protocol's defining
file is not under `src/`.  The cryptographic digest and the
elliptic-curve signing capability are external collaborators; they are
taken as function parameters. -/

/-- A transaction with both optional signature fields absent. -/
def stripSignatures (tx : Tx) : Tx :=
  { tx with Signature := none, FeePayerSignature := none }

/-- A transaction with only the fee-payer signature absent. -/
def stripFeePayerSignature (tx : Tx) : Tx := { tx with FeePayerSignature := none }

/-- Modelled from the spec: `SigningHash` digests the codec's encoding
of the transaction with both optional signature fields absent,
regardless of whether they are set on the transaction being hashed. -/
def SigningHash (digest : Bytes → Bytes) (tx : Tx) : Bytes :=
  digest (encodeTx (stripSignatures tx))

/-- Modelled from the spec: `SignTransaction` computes the signing
hash, invokes the external signing capability, and sets the sender
signature (replacing any previous one). -/
def SignTransaction (digest : Bytes → Bytes) (sign : Bytes → Sig) (tx : Tx) : Tx :=
  { tx with Signature := some (sign (SigningHash digest tx)) }

/-- Modelled from the spec: `AddFeePayerSignature` fails with
`MissingSenderSignature` when the sender signature is absent; otherwise
it digests the codec's encoding of the transaction including the sender
signature but excluding the fee-payer signature, signs that digest, and
sets the fee-payer signature. -/
def AddFeePayerSignature (digest : Bytes → Bytes) (sign : Bytes → Sig) (tx : Tx) :
    Except TxError Tx :=
  match tx.Signature with
  | none => .error .missingSenderSignature
  | some _ =>
    .ok { tx with
          FeePayerSignature := some (sign (digest (encodeTx (stripFeePayerSignature tx)))) }

/-! ## Well-formedness

The structural domain of the codec: the shapes the spec's data model
fixes (20-byte addresses, 32-byte storage keys and signature halves,
`uint64` ranges, present big-integer fields, a fee-payer signature only
on top of a sender signature). -/

/-- A well-formed signature. -/
def wfSig (σ : Sig) : Bool :=
  decide (σ.R < 2 ^ 256) && (decide (σ.S < 2 ^ 256) && decide (σ.YParity < 2))

/-- A well-formed call: a 20-byte target when present, and a present
value. -/
def wfCall (c : Call) : Bool :=
  (match c.To with
    | none => true
    | some a => decide (a.length = 20)) && c.Value.isSome

/-- A well-formed access-list tuple. -/
def wfAccess (a : AccessTuple) : Bool :=
  decide (a.Address.length = 20) && a.StorageKeys.all (fun k => decide (k.length = 32))

/-- A structurally well-formed transaction: every field the codec
writes is present and within the spec's shape. -/
def wfTx (tx : Tx) : Bool :=
  tx.ChainID.isSome && (tx.NonceKey.isSome && (tx.MaxPriorityFeePerGas.isSome &&
  (tx.MaxFeePerGas.isSome &&
  (decide (tx.Nonce < 2 ^ 64) && (decide (tx.Gas < 2 ^ 64) &&
  (decide (tx.ValidAfter < 2 ^ 64) && (decide (tx.ValidBefore < 2 ^ 64) &&
  (decide (tx.FeeToken.length = 20) &&
  (tx.Calls.all wfCall && (tx.AccessList.all wfAccess &&
  ((match tx.Signature with
    | none => true
    | some σ => wfSig σ) &&
  (match tx.FeePayerSignature with
    | none => true
    | some φ => wfSig φ && tx.Signature.isSome))))))))))))

/-! ## Builder method calls as data

To state order-independence of builder chains, each builder method
call is reified with its arguments; `BOp.app` dispatches to the
embedded Go methods, and `BOp.field` names the `Tx` field the call
writes (the two call-appending methods and the access-list appender
each write their own sequence field). -/

/-- One builder method call with its arguments. -/
inductive BOp where
  | setGas (gas : Nat)
  | setMaxFeePerGas (maxFee : Option Nat)
  | setMaxPriorityFeePerGas (maxPriorityFee : Option Nat)
  | setNonce (nonce : Nat)
  | setNonceKey (nonceKey : Option Nat)
  | setValidBefore (validBefore : Nat)
  | setValidAfter (validAfter : Nat)
  | setFeeToken (token : Bytes)
  | addCall (toAddr : Bytes) (value : Option Nat) (data : Option Bytes)
  | addContractCreation (value : Option Nat) (data : Option Bytes)
  | addAccessListEntry (address : Bytes) (storageKeys : List Bytes)
deriving DecidableEq, Repr

/-- Apply one reified builder method call. -/
def BOp.app : BOp → Builder → Builder
  | .setGas g, b => SetGas b g
  | .setMaxFeePerGas v, b => SetMaxFeePerGas b v
  | .setMaxPriorityFeePerGas v, b => SetMaxPriorityFeePerGas b v
  | .setNonce n, b => SetNonce b n
  | .setNonceKey v, b => SetNonceKey b v
  | .setValidBefore t, b => SetValidBefore b t
  | .setValidAfter t, b => SetValidAfter b t
  | .setFeeToken a, b => SetFeeToken b a
  | .addCall a v d, b => AddCall b a v d
  | .addContractCreation v d, b => AddContractCreation b v d
  | .addAccessListEntry a ks, b => AddAccessListEntry b a ks

/-- The index of the `Tx` field a builder method call writes. -/
def BOp.field : BOp → Nat
  | .setGas _ => 0
  | .setMaxFeePerGas _ => 1
  | .setMaxPriorityFeePerGas _ => 2
  | .setNonce _ => 3
  | .setNonceKey _ => 4
  | .setValidBefore _ => 5
  | .setValidAfter _ => 6
  | .setFeeToken _ => 7
  | .addCall _ _ _ => 8
  | .addContractCreation _ _ => 8
  | .addAccessListEntry _ _ => 9

/-- Whether a builder method call overwrites its field wholesale (the
`Set*` methods) rather than appending to it (the `Add*` methods). -/
def BOp.isSet : BOp → Bool
  | .setGas _ => true
  | .setMaxFeePerGas _ => true
  | .setMaxPriorityFeePerGas _ => true
  | .setNonce _ => true
  | .setNonceKey _ => true
  | .setValidBefore _ => true
  | .setValidAfter _ => true
  | .setFeeToken _ => true
  | .addCall _ _ _ => false
  | .addContractCreation _ _ => false
  | .addAccessListEntry _ _ => false

/-- Run a chain of builder method calls left to right. -/
def runOps (ops : List BOp) (b : Builder) : Builder :=
  ops.foldl (fun b o => o.app b) b

/-! ## Concrete transactions for witnesses and counterexamples -/

/-- A concrete well-formed call. -/
def exCall : Call :=
  { To := some (List.replicate 20 7), Value := some 500, Data := [0xaa, 0xbb] }

/-- A concrete sender signature. -/
def exSig : Sig := { R := 11, S := 22, YParity := 1 }

/-- A concrete fee-payer signature whose numeric components are all
zero. -/
def exZeroSig : Sig := { R := 0, S := 0, YParity := 0 }

/-- A concrete well-formed unsigned transaction. -/
def exTxU : Tx :=
  { ChainID := some 42424
    Nonce := 5
    NonceKey := some 0
    MaxPriorityFeePerGas := some 1000000000
    MaxFeePerGas := some 2000000000
    Gas := 100000
    FeeToken := List.replicate 20 0
    Calls := [exCall]
    AccessList := [{ Address := List.replicate 20 3, StorageKeys := [List.replicate 32 1] }]
    ValidAfter := 0
    ValidBefore := 999999
    Signature := none
    FeePayerSignature := none }

/-- The same transaction, sender-signed. -/
def exTxS : Tx := { exTxU with Signature := some exSig }

/-- The same transaction, dual-signed with the zero-valued fee-payer
signature. -/
def exTxD : Tx := { exTxS with FeePayerSignature := some exZeroSig }

/-- A builder chain that passes validation (the success case of the
repository's builder tests). -/
def exGoodBuilder : Builder :=
  AddCall (SetGas (NewBuilder (some 42424)) 21000) (List.replicate 20 7) (some 1000) (some [])


end Tempo

/-! # Proofs -/

set_option maxRecDepth 40000

namespace Tempo

/-! ### Byte-level representation lemmas -/

theorem leBytes_fuel : ∀ f g n, n ≤ f → n ≤ g → leBytes f n = leBytes g n := by
  intro f
  induction f with
  | zero =>
    intro g n hf _
    obtain rfl : n = 0 := Nat.le_zero.mp hf
    cases g <;> simp [leBytes]
  | succ f ih =>
    intro g n hf hg
    cases n with
    | zero => cases g <;> simp [leBytes]
    | succ m =>
      cases g with
      | zero => omega
      | succ g =>
        simp only [leBytes, if_neg (Nat.succ_ne_zero m)]
        have hlt : (m + 1) / 256 < m + 1 := Nat.div_lt_self (Nat.succ_pos m) (by norm_num)
        rw [ih g ((m + 1) / 256) (by omega) (by omega)]

theorem beBytes_zero : beBytes 0 = [] := rfl

theorem beBytes_eq (n : Nat) (h : n ≠ 0) : beBytes n = beBytes (n / 256) ++ [n % 256] := by
  unfold beBytes
  cases n with
  | zero => omega
  | succ m =>
    have hlt : (m + 1) / 256 < m + 1 := Nat.div_lt_self (Nat.succ_pos m) (by norm_num)
    simp only [leBytes, if_neg (Nat.succ_ne_zero m)]
    rw [leBytes_fuel m ((m + 1) / 256) ((m + 1) / 256) (by omega) le_rfl]
    simp

theorem beVal_beBytes (n : Nat) : beVal (beBytes n) = n := by
  induction n using Nat.strong_induction_on with
  | _ n ih =>
    rcases eq_or_ne n 0 with rfl | h
    · rfl
    · rw [beBytes_eq n h]
      unfold beVal
      rw [List.foldl_append]
      have hdiv : n / 256 < n := Nat.div_lt_self (Nat.pos_of_ne_zero h) (by norm_num)
      have := ih (n / 256) hdiv
      unfold beVal at this
      rw [this]
      simp only [List.foldl_cons, List.foldl_nil]
      omega

theorem beBytes_ne_nil (n : Nat) (h : n ≠ 0) : beBytes n ≠ [] := by
  rw [beBytes_eq n h]
  simp

theorem beBytes_head_ne_zero (n : Nat) : (beBytes n).head? ≠ some 0 := by
  induction n using Nat.strong_induction_on with
  | _ n ih =>
    rcases eq_or_ne n 0 with rfl | h
    · simp [beBytes, leBytes]
    · rw [beBytes_eq n h]
      rcases eq_or_ne (n / 256) 0 with h2 | h2
      · rw [h2, beBytes_zero, List.nil_append]
        have : n % 256 = n := Nat.mod_eq_of_lt (by omega)
        simp [this, h]
      · have hdiv : n / 256 < n := Nat.div_lt_self (Nat.pos_of_ne_zero h) (by norm_num)
        obtain ⟨b, t, hbt⟩ := List.exists_cons_of_ne_nil (beBytes_ne_nil _ h2)
        rw [hbt]
        have := ih (n / 256) hdiv
        rw [hbt] at this
        simpa using this

theorem beBytes_length_le (n w : Nat) (h : n < 256 ^ w) : (beBytes n).length ≤ w := by
  induction w generalizing n with
  | zero =>
    simp only [pow_zero, Nat.lt_one_iff] at h
    subst h
    simp [beBytes_zero]
  | succ w ih =>
    rcases eq_or_ne n 0 with rfl | hn
    · simp [beBytes_zero]
    · rw [beBytes_eq n hn]
      have hdivlt : n / 256 < 256 ^ w := by
        rw [Nat.div_lt_iff_lt_mul (by norm_num)]
        calc n < 256 ^ (w + 1) := h
        _ = 256 ^ w * 256 := by ring
      have := ih _ hdivlt
      simp only [List.length_append, List.length_cons, List.length_nil]
      omega

theorem beVal_replicate_zero (k : Nat) (bs : Bytes) :
    beVal (List.replicate k 0 ++ bs) = beVal bs := by
  induction k with
  | zero => rfl
  | succ k ih =>
    rw [List.replicate_succ, List.cons_append]
    unfold beVal at ih ⊢
    simpa using ih

theorem bePad_length (w n : Nat) (h : n < 256 ^ w) : (bePad w n).length = w := by
  unfold bePad
  have := beBytes_length_le n w h
  simp only [List.length_append, List.length_replicate]
  omega

theorem beVal_bePad (w n : Nat) : beVal (bePad w n) = n := by
  unfold bePad
  rw [beVal_replicate_zero, beVal_beBytes]

/-! ### Parser consumption lemmas

Each field parser, run on that field's encoding followed by arbitrary
trailing bytes, returns exactly the encoded value and the trailing
bytes. -/

theorem pbind_ok {α β : Type} {p : Parser α} (f : α → Parser β) {s : Bytes} {a : α}
    {r : Bytes} (h : p s = .ok (a, r)) : pbind p f s = f a r := by
  unfold pbind
  rw [h]

theorem pbind_err {α β : Type} {p : Parser α} (f : α → Parser β) {s : Bytes} {e : TxError}
    (h : p s = .error e) : pbind p f s = .error e := by
  unfold pbind
  rw [h]

theorem pNat_enc (n : Nat) (rest : Bytes) : pNat (encNat n ++ rest) = .ok (n, rest) := by
  show pNat ((beBytes n).length :: (beBytes n ++ rest)) = .ok (n, rest)
  simp only [pNat]
  rw [if_pos (by simp), List.take_left, if_neg (beBytes_head_ne_zero n), beVal_beBytes,
    List.drop_left]

theorem pU64_enc (n : Nat) (rest : Bytes) (h : n < 2 ^ 64) :
    pU64 (encNat n ++ rest) = .ok (n, rest) := by
  unfold pU64
  rw [pNat_enc]
  show (if n < 2 ^ 64 then (Except.ok (n, rest) : Except TxError (Nat × Bytes))
    else .error .invalidTransaction) = .ok (n, rest)
  rw [if_pos h]

theorem pBytes_enc (n : Nat) (bs rest : Bytes) (h : bs.length = n) :
    pBytes n (bs ++ rest) = .ok (bs, rest) := by
  unfold pBytes
  subst h
  rw [if_pos (by simp), List.take_left, List.drop_left]

theorem pData_enc (bs rest : Bytes) : pData (encBytes bs ++ rest) = .ok (bs, rest) := by
  show pData (bs.length :: (bs ++ rest)) = .ok (bs, rest)
  simp only [pData]
  rw [if_pos (by simp), List.take_left, List.drop_left]

theorem pOptAddr_enc (o : Option Bytes) (rest : Bytes)
    (h : ∀ a, o = some a → a.length = 20) :
    pOptAddr (encOptAddr o ++ rest) = .ok (o, rest) := by
  cases o with
  | none => rfl
  | some a =>
    show pOptAddr (1 :: (a ++ rest)) = .ok (some a, rest)
    simp only [pOptAddr]
    rw [if_pos trivial, pbind_ok _ (pBytes_enc 20 a rest (h a rfl)),
      if_neg (by norm_num : ¬(1 : Nat) = 0)]

theorem pCall_enc (c : Call) (rest : Bytes) (h : wfCall c = true) :
    pCall (encCall c ++ rest) = .ok (c, rest) := by
  obtain ⟨T, V, D⟩ := c
  simp only [wfCall, Bool.and_eq_true, Option.isSome_iff_exists] at h
  obtain ⟨hT, v, hv⟩ := h
  have hT20 : ∀ a, T = some a → a.length = 20 := by
    intro a ha
    subst ha
    simpa using hT
  subst hv
  simp only [encCall, List.append_assoc]
  unfold pCall
  rw [pbind_ok _ (pOptAddr_enc T _ hT20)]
  rw [pbind_ok _ (pNat_enc _ _)]
  rw [pbind_ok _ (pData_enc _ _)]
  rfl

theorem pMany_enc {α : Type} (p : Parser α) (f : α → Bytes) (l : List α) (rest : Bytes)
    (hp : ∀ a ∈ l, ∀ r, p (f a ++ r) = .ok (a, r)) :
    pMany p l.length ((l.map f).flatten ++ rest) = .ok (l, rest) := by
  induction l with
  | nil => rfl
  | cons a t ih =>
    simp only [List.map_cons, List.flatten_cons, List.length_cons, List.append_assoc]
    unfold pMany
    rw [pbind_ok _ (hp a (by simp) _)]
    rw [pbind_ok _ (ih (fun x hx r => hp x (by simp [hx]) r))]

theorem pList_enc {α : Type} (p : Parser α) (f : α → Bytes) (l : List α) (rest : Bytes)
    (hp : ∀ a ∈ l, ∀ r, p (f a ++ r) = .ok (a, r)) :
    pList p (encList f l ++ rest) = .ok (l, rest) := by
  show pList p (l.length :: ((l.map f).flatten ++ rest)) = .ok (l, rest)
  simp only [pList]
  exact pMany_enc p f l rest hp

theorem pAccess_enc (a : AccessTuple) (rest : Bytes) (h : wfAccess a = true) :
    pAccess (encAccess a ++ rest) = .ok (a, rest) := by
  obtain ⟨A, K⟩ := a
  simp only [wfAccess, Bool.and_eq_true, decide_eq_true_eq, List.all_eq_true] at h
  obtain ⟨hA, hK⟩ := h
  have hkeys : pList (pBytes 32) (encList id K ++ rest) = .ok (K, rest) :=
    pList_enc _ id K rest (fun k hk r => pBytes_enc 32 k r (by simpa using hK k hk))
  simp only [encList, List.map_id, List.cons_append] at hkeys
  simp only [encAccess, List.append_assoc, List.cons_append]
  unfold pAccess
  rw [pbind_ok _ (pBytes_enc 20 A _ hA)]
  rw [pbind_ok _ hkeys]

theorem two_pow_256_eq : (2 : Nat) ^ 256 = 256 ^ 32 := by
  norm_num

theorem pSig_enc (σ : Sig) (rest : Bytes) (h : wfSig σ = true) :
    pSig (encSig σ ++ rest) = .ok (σ, rest) := by
  obtain ⟨R, S, Y⟩ := σ
  simp only [wfSig, Bool.and_eq_true, decide_eq_true_eq] at h
  obtain ⟨hR, hS, hY⟩ := h
  rw [two_pow_256_eq] at hR hS
  simp only [encSig, List.append_assoc, List.cons_append]
  unfold pSig
  rw [pbind_ok _ (pBytes_enc 32 _ _ (bePad_length 32 R hR))]
  rw [pbind_ok _ (pBytes_enc 32 _ _ (bePad_length 32 S hS))]
  show (if Y < 2 then
      (.ok ({ R := beVal (bePad 32 R), S := beVal (bePad 32 S), YParity := Y }, rest) :
        Except TxError (Sig × Bytes))
    else .error .invalidTransaction) =
    .ok ({ R := R, S := S, YParity := Y }, rest)
  rw [if_pos hY, beVal_bePad, beVal_bePad]

theorem encSig_ne_nil (σ : Sig) : encSig σ ≠ [] := by
  simp [encSig]

theorem pSigs_cons_ok (s : Bytes) (hs : s ≠ []) (σ : Sig) (r : Bytes)
    (h : pSig s = .ok (σ, r)) :
    pSigs s =
      if r = [] then .ok ((some σ, none), [])
      else
        match pSig r with
        | .error e => .error e
        | .ok (φ, r') =>
          if r' = [] then .ok ((some σ, some φ), []) else .error .invalidTransaction := by
  unfold pSigs
  rw [if_neg hs, h]

theorem pSigs_enc (sg fp : Option Sig)
    (hs : ∀ σ, sg = some σ → wfSig σ = true)
    (hf : ∀ φ, fp = some φ → wfSig φ = true)
    (hsf : fp.isSome = true → sg.isSome = true) :
    pSigs (encOptSig sg ++ encOptSig fp) = .ok ((sg, fp), []) := by
  cases sg with
  | none =>
    cases fp with
    | none => rfl
    | some φ => simp at hsf
  | some σ =>
    cases fp with
    | none =>
      show pSigs (encSig σ ++ []) = _
      rw [List.append_nil]
      have h1 := pSig_enc σ [] (hs σ rfl)
      rw [List.append_nil] at h1
      rw [pSigs_cons_ok _ (encSig_ne_nil σ) σ [] h1]
      rfl
    | some φ =>
      show pSigs (encSig σ ++ encSig φ) = _
      have h2 := pSig_enc φ [] (hf φ rfl)
      rw [List.append_nil] at h2
      rw [pSigs_cons_ok _ (fun hh => encSig_ne_nil σ (List.append_eq_nil.mp hh).1) σ
        (encSig φ) (pSig_enc σ (encSig φ) (hs σ rfl))]
      rw [if_neg (encSig_ne_nil φ), h2]
      rfl

theorem pTx_enc (tx : Tx) (h : wfTx tx = true) : pTx (encBody tx) = .ok (tx, []) := by
  obtain ⟨C, N, K, MP, MF, G, FT, CS, AL, VA, VB, SG, FP⟩ := tx
  simp only [wfTx, Bool.and_eq_true, decide_eq_true_eq, List.all_eq_true] at h
  obtain ⟨h1, h2, h3, h4, h5, h6, h7, h8, h9, h10, h11, h12, h13⟩ := h
  rw [Option.isSome_iff_exists] at h1 h2 h3 h4
  obtain ⟨c, rfl⟩ := h1
  obtain ⟨k, rfl⟩ := h2
  obtain ⟨mp, rfl⟩ := h3
  obtain ⟨mf, rfl⟩ := h4
  have eC : ∀ r, pNat (encNat c ++ r) = .ok (c, r) := fun r => pNat_enc c r
  have eN : ∀ r, pU64 (encNat N ++ r) = .ok (N, r) := fun r => pU64_enc N r h5
  have eK : ∀ r, pNat (encNat k ++ r) = .ok (k, r) := fun r => pNat_enc k r
  have eMP : ∀ r, pNat (encNat mp ++ r) = .ok (mp, r) := fun r => pNat_enc mp r
  have eMF : ∀ r, pNat (encNat mf ++ r) = .ok (mf, r) := fun r => pNat_enc mf r
  have eG : ∀ r, pU64 (encNat G ++ r) = .ok (G, r) := fun r => pU64_enc G r h6
  have eFT : ∀ r, pBytes 20 (FT ++ r) = .ok (FT, r) := fun r => pBytes_enc 20 FT r h9
  have eCS : ∀ r, pList pCall (encList encCall CS ++ r) = .ok (CS, r) :=
    fun r => pList_enc pCall encCall CS r (fun cl hcl rr => pCall_enc cl rr (h10 cl hcl))
  have eAL : ∀ r, pList pAccess (encList encAccess AL ++ r) = .ok (AL, r) :=
    fun r => pList_enc pAccess encAccess AL r (fun al hal rr => pAccess_enc al rr (h11 al hal))
  have eVA : ∀ r, pU64 (encNat VA ++ r) = .ok (VA, r) := fun r => pU64_enc VA r h7
  have eVB : ∀ r, pU64 (encNat VB ++ r) = .ok (VB, r) := fun r => pU64_enc VB r h8
  have eSG : pSigs (encOptSig SG ++ encOptSig FP) = .ok ((SG, FP), []) := by
    refine pSigs_enc SG FP ?_ ?_ ?_
    · intro σ hσ
      rw [hσ] at h12
      simpa using h12
    · intro φ hφ
      rw [hφ] at h13
      simp only [Bool.and_eq_true] at h13
      exact h13.1
    · intro hfp
      obtain ⟨φ, hφ⟩ := Option.isSome_iff_exists.mp hfp
      rw [hφ] at h13
      simp only [Bool.and_eq_true] at h13
      exact h13.2
  simp only [encBody, encMand, List.append_assoc, Option.getD_some, pTx, pbind, eC, eN, eK,
    eMP, eMF, eG, eFT, eCS, eAL, eVA, eVB, eSG]

theorem decode_encode (tx : Tx) (h : wfTx tx = true) : decodeTx (encodeTx tx) = .ok tx := by
  rw [show encodeTx tx = txType :: encBody tx from rfl]
  simp only [decodeTx]
  rw [if_pos trivial, pTx_enc tx h]

theorem encode_injective (t1 t2 : Tx) (h1 : wfTx t1 = true) (h2 : wfTx t2 = true)
    (h : encodeTx t1 = encodeTx t2) : t1 = t2 := by
  have hd := decode_encode t1 h1
  rw [h, decode_encode t2 h2] at hd
  injection hd with hd
  exact hd.symm

/-! ### Parser truncation lemmas

Each field parser fails with `InvalidTransaction` on every proper
truncation of an encoding. -/

theorem take_append_ge (a b : List Nat) (k : Nat) (h : a.length ≤ k) :
    (a ++ b).take k = a ++ b.take (k - a.length) := by
  rw [List.take_append_eq_append_take, List.take_of_length_le h]

theorem pbind_chain_cut {α β : Type} (p : Parser α) (f : α → Parser β) (a : α)
    (A X : Bytes) (k m : Nat)
    (henc : ∀ r, p (A ++ r) = .ok (a, r))
    (hcut : ∀ j, j < A.length → p (A.take j) = .error .invalidTransaction)
    (hrest : ∀ j, j < m → f a (X.take j) = .error .invalidTransaction)
    (hk : k < A.length + m) :
    pbind p f ((A ++ X).take k) = .error .invalidTransaction := by
  rcases Nat.lt_or_ge k A.length with hlt | hge
  · rw [List.take_append_of_le_length (Nat.le_of_lt hlt)]
    exact pbind_err f (hcut k hlt)
  · rw [take_append_ge _ _ _ hge, pbind_ok f (henc _)]
    exact hrest _ (by omega)

theorem pNat_cut (n k : Nat) (hk : k < (encNat n).length) :
    pNat ((encNat n).take k) = .error .invalidTransaction := by
  cases k with
  | zero => rfl
  | succ j =>
    have hj : j < (beBytes n).length := by
      simpa [encNat] using hk
    show pNat ((beBytes n).length :: (beBytes n).take j) = _
    simp only [pNat]
    rw [if_neg (by simp only [List.length_take]; omega)]

theorem pU64_cut (n k : Nat) (hk : k < (encNat n).length) :
    pU64 ((encNat n).take k) = .error .invalidTransaction := by
  unfold pU64
  rw [pNat_cut n k hk]

theorem pBytes_cut (n : Nat) (s : Bytes) (h : s.length < n) :
    pBytes n s = .error .invalidTransaction := by
  unfold pBytes
  rw [if_neg (by omega)]

theorem pData_cut (bs : Bytes) (k : Nat) (hk : k < (encBytes bs).length) :
    pData ((encBytes bs).take k) = .error .invalidTransaction := by
  cases k with
  | zero => rfl
  | succ j =>
    have hj : j < bs.length := by
      simpa [encBytes] using hk
    show pData (bs.length :: bs.take j) = _
    simp only [pData]
    rw [if_neg (by simp only [List.length_take]; omega)]

theorem pOptAddr_cut (o : Option Bytes) (ho : ∀ a, o = some a → a.length = 20) (k : Nat)
    (hk : k < (encOptAddr o).length) :
    pOptAddr ((encOptAddr o).take k) = .error .invalidTransaction := by
  cases o with
  | none =>
    simp only [encOptAddr, List.length_cons, List.length_nil] at hk
    obtain rfl : k = 0 := by omega
    rfl
  | some a =>
    have ha : a.length = 20 := ho a rfl
    cases k with
    | zero => rfl
    | succ j =>
      have hj : j < 20 := by
        simp only [encOptAddr, List.length_cons, ha] at hk
        omega
      show pOptAddr (1 :: a.take j) = _
      simp only [pOptAddr]
      rw [if_pos trivial, pbind_err _ (pBytes_cut 20 (a.take j)
        (by simp only [List.length_take]; omega)), if_neg (by norm_num : ¬(1 : Nat) = 0)]

theorem pCall_cut (c : Call) (h : wfCall c = true) (k : Nat) (hk : k < (encCall c).length) :
    pCall ((encCall c).take k) = .error .invalidTransaction := by
  obtain ⟨T, V, D⟩ := c
  simp only [wfCall, Bool.and_eq_true, Option.isSome_iff_exists] at h
  obtain ⟨hT, v, hv⟩ := h
  have hT20 : ∀ a, T = some a → a.length = 20 := by
    intro a ha
    subst ha
    simpa using hT
  subst hv
  simp only [encCall, Option.getD_some, List.append_assoc] at hk ⊢
  simp only [List.length_append] at hk
  unfold pCall
  refine pbind_chain_cut pOptAddr _ T _ _ k ((encNat v).length + (encBytes D).length)
    (fun r => pOptAddr_enc T r hT20) (fun j hj => pOptAddr_cut T hT20 j hj) ?_ (by omega)
  intro j hj
  refine pbind_chain_cut pNat _ v _ _ j (encBytes D).length
    (fun r => pNat_enc v r) (fun i hi => pNat_cut v i hi) ?_ (by omega)
  intro i hi
  exact pbind_err _ (pData_cut D i hi)

theorem pMany_cut {α : Type} (p : Parser α) (f : α → Bytes) (l : List α)
    (henc : ∀ a ∈ l, ∀ r, p (f a ++ r) = .ok (a, r))
    (hcut : ∀ a ∈ l, ∀ j, j < (f a).length → p ((f a).take j) = .error .invalidTransaction)
    (k : Nat) (hk : k < ((l.map f).flatten).length) :
    pMany p l.length (((l.map f).flatten).take k) = .error .invalidTransaction := by
  induction l generalizing k with
  | nil => simp at hk
  | cons a t ih =>
    simp only [List.map_cons, List.flatten_cons, List.length_cons, List.length_append] at hk ⊢
    show pMany p (t.length + 1) ((f a ++ (t.map f).flatten).take k) = _
    unfold pMany
    refine pbind_chain_cut p _ a _ _ k ((t.map f).flatten).length
      (fun r => henc a (by simp) r) (fun j hj => hcut a (by simp) j hj) ?_ (by omega)
    intro j hj
    have hrec := ih (fun x hx r => henc x (by simp [hx]) r)
      (fun x hx i hi => hcut x (by simp [hx]) i hi) j hj
    exact pbind_err _ hrec

theorem pList_cut {α : Type} (p : Parser α) (f : α → Bytes) (l : List α)
    (henc : ∀ a ∈ l, ∀ r, p (f a ++ r) = .ok (a, r))
    (hcut : ∀ a ∈ l, ∀ j, j < (f a).length → p ((f a).take j) = .error .invalidTransaction)
    (k : Nat) (hk : k < (encList f l).length) :
    pList p ((encList f l).take k) = .error .invalidTransaction := by
  cases k with
  | zero => rfl
  | succ j =>
    have hj : j < ((l.map f).flatten).length := by
      simpa [encList] using hk
    show pList p (l.length :: ((l.map f).flatten).take j) = _
    simp only [pList]
    exact pMany_cut p f l henc hcut j hj

theorem pAccess_cut (a : AccessTuple) (h : wfAccess a = true) (k : Nat)
    (hk : k < (encAccess a).length) :
    pAccess ((encAccess a).take k) = .error .invalidTransaction := by
  obtain ⟨A, K⟩ := a
  simp only [wfAccess, Bool.and_eq_true, decide_eq_true_eq, List.all_eq_true] at h
  obtain ⟨hA, hK⟩ := h
  have henc : ∀ x ∈ K, ∀ r, pBytes 32 (id x ++ r) = .ok (x, r) :=
    fun x hx r => pBytes_enc 32 x r (by simpa using hK x hx)
  have hcut : ∀ x ∈ K, ∀ j, j < (id x).length →
      pBytes 32 ((id x).take j) = .error .invalidTransaction := by
    intro x hx j hj
    refine pBytes_cut 32 _ ?_
    have := hK x hx
    simp only [decide_eq_true_eq] at this
    simp only [id_eq] at hj ⊢
    simp only [List.length_take]
    omega
  have hshape : encAccess ⟨A, K⟩ = A ++ encList id K := by
    simp [encAccess, encList]
  rw [hshape] at hk ⊢
  unfold pAccess
  refine pbind_chain_cut (pBytes 20) _ A _ _ k (encList id K).length
    (fun r => pBytes_enc 20 A r hA) ?_ ?_ ?_
  · intro j hj
    exact pBytes_cut 20 _ (by simp only [List.length_take]; omega)
  · intro j hj
    exact pbind_err _ (pList_cut (pBytes 32) id K henc hcut j hj)
  · simp only [List.length_append] at hk
    omega

theorem pSig_cut (σ : Sig) (h : wfSig σ = true) (k : Nat) (hk : k < 65) :
    pSig ((encSig σ).take k) = .error .invalidTransaction := by
  obtain ⟨R, S, Y⟩ := σ
  simp only [wfSig, Bool.and_eq_true, decide_eq_true_eq] at h
  obtain ⟨hR, hS, hY⟩ := h
  rw [two_pow_256_eq] at hR hS
  have hRlen : (bePad 32 R).length = 32 := bePad_length 32 R hR
  have hSlen : (bePad 32 S).length = 32 := bePad_length 32 S hS
  simp only [encSig, List.append_assoc]
  unfold pSig
  refine pbind_chain_cut (pBytes 32) _ (bePad 32 R) _ _ k 33
    (fun r => pBytes_enc 32 _ r hRlen) ?_ ?_ (by omega)
  · intro j hj
    exact pBytes_cut 32 _ (by simp only [List.length_take]; omega)
  · intro j hj
    refine pbind_chain_cut (pBytes 32) _ (bePad 32 S) _ _ j 1
      (fun r => pBytes_enc 32 _ r hSlen) ?_ ?_ (by omega)
    · intro i hi
      exact pBytes_cut 32 _ (by simp only [List.length_take]; omega)
    · intro i hi
      interval_cases i
      rfl

theorem pTx_cut (tx : Tx) (h : wfTx tx = true) (k : Nat)
    (hk : k < (encMand tx).length) :
    pTx ((encBody tx).take k) = .error .invalidTransaction := by
  obtain ⟨C, N, K, MP, MF, G, FT, CS, AL, VA, VB, SG, FP⟩ := tx
  simp only [wfTx, Bool.and_eq_true, decide_eq_true_eq, List.all_eq_true] at h
  obtain ⟨h1, h2, h3, h4, h5, h6, h7, h8, h9, h10, h11, h12, h13⟩ := h
  rw [Option.isSome_iff_exists] at h1 h2 h3 h4
  obtain ⟨c, rfl⟩ := h1
  obtain ⟨k0, rfl⟩ := h2
  obtain ⟨mp, rfl⟩ := h3
  obtain ⟨mf, rfl⟩ := h4
  have hCS_enc : ∀ cl ∈ CS, ∀ r, pCall (encCall cl ++ r) = .ok (cl, r) :=
    fun cl hcl r => pCall_enc cl r (h10 cl hcl)
  have hCS_cut : ∀ cl ∈ CS, ∀ j, j < (encCall cl).length →
      pCall ((encCall cl).take j) = .error .invalidTransaction :=
    fun cl hcl j hj => pCall_cut cl (h10 cl hcl) j hj
  have hAL_enc : ∀ al ∈ AL, ∀ r, pAccess (encAccess al ++ r) = .ok (al, r) :=
    fun al hal r => pAccess_enc al r (h11 al hal)
  have hAL_cut : ∀ al ∈ AL, ∀ j, j < (encAccess al).length →
      pAccess ((encAccess al).take j) = .error .invalidTransaction :=
    fun al hal j hj => pAccess_cut al (h11 al hal) j hj
  simp only [encBody, encMand, Option.getD_some, List.append_assoc] at hk ⊢
  simp only [List.length_append] at hk
  unfold pTx
  refine pbind_chain_cut (pNat) _ c _ _ k (((encNat N).length + ((encNat k0).length + ((encNat mp).length + ((encNat mf).length + ((encNat G).length + (FT.length + ((encList encCall CS).length + ((encList encAccess AL).length + ((encNat VA).length + (encNat VB).length))))))))))
    (fun r => pNat_enc c r)
    (fun j hj => pNat_cut c j hj) ?_ (by omega)
  intro j1 hj1
  refine pbind_chain_cut (pU64) _ N _ _ j1 (((encNat k0).length + ((encNat mp).length + ((encNat mf).length + ((encNat G).length + (FT.length + ((encList encCall CS).length + ((encList encAccess AL).length + ((encNat VA).length + (encNat VB).length)))))))))
    (fun r => pU64_enc N r h5)
    (fun j hj => pU64_cut N j hj) ?_ (by omega)
  intro j2 hj2
  refine pbind_chain_cut (pNat) _ k0 _ _ j2 (((encNat mp).length + ((encNat mf).length + ((encNat G).length + (FT.length + ((encList encCall CS).length + ((encList encAccess AL).length + ((encNat VA).length + (encNat VB).length))))))))
    (fun r => pNat_enc k0 r)
    (fun j hj => pNat_cut k0 j hj) ?_ (by omega)
  intro j3 hj3
  refine pbind_chain_cut (pNat) _ mp _ _ j3 (((encNat mf).length + ((encNat G).length + (FT.length + ((encList encCall CS).length + ((encList encAccess AL).length + ((encNat VA).length + (encNat VB).length)))))))
    (fun r => pNat_enc mp r)
    (fun j hj => pNat_cut mp j hj) ?_ (by omega)
  intro j4 hj4
  refine pbind_chain_cut (pNat) _ mf _ _ j4 (((encNat G).length + (FT.length + ((encList encCall CS).length + ((encList encAccess AL).length + ((encNat VA).length + (encNat VB).length))))))
    (fun r => pNat_enc mf r)
    (fun j hj => pNat_cut mf j hj) ?_ (by omega)
  intro j5 hj5
  refine pbind_chain_cut (pU64) _ G _ _ j5 ((FT.length + ((encList encCall CS).length + ((encList encAccess AL).length + ((encNat VA).length + (encNat VB).length)))))
    (fun r => pU64_enc G r h6)
    (fun j hj => pU64_cut G j hj) ?_ (by omega)
  intro j6 hj6
  refine pbind_chain_cut (pBytes 20) _ FT _ _ j6 (((encList encCall CS).length + ((encList encAccess AL).length + ((encNat VA).length + (encNat VB).length))))
    (fun r => pBytes_enc 20 FT r h9)
    (fun j hj => pBytes_cut 20 _ (by simp only [List.length_take]; omega)) ?_ (by omega)
  intro j7 hj7
  refine pbind_chain_cut (pList pCall) _ CS _ _ j7 (((encList encAccess AL).length + ((encNat VA).length + (encNat VB).length)))
    (fun r => pList_enc pCall encCall CS r hCS_enc)
    (fun j hj => pList_cut pCall encCall CS hCS_enc hCS_cut j hj) ?_ (by omega)
  intro j8 hj8
  refine pbind_chain_cut (pList pAccess) _ AL _ _ j8 (((encNat VA).length + (encNat VB).length))
    (fun r => pList_enc pAccess encAccess AL r hAL_enc)
    (fun j hj => pList_cut pAccess encAccess AL hAL_enc hAL_cut j hj) ?_ (by omega)
  intro j9 hj9
  refine pbind_chain_cut (pU64) _ VA _ _ j9 ((encNat VB).length)
    (fun r => pU64_enc VA r h7)
    (fun j hj => pU64_cut VA j hj) ?_ (by omega)
  intro j10 hj10
  refine pbind_chain_cut (pU64) _ VB _ _ j10 (0)
    (fun r => pU64_enc VB r h8)
    (fun j hj => pU64_cut VB j hj) ?_ (by omega)
  intro jz hjz
  omega

theorem pTx_mand (tx : Tx) (h : wfTx tx = true) (T : Bytes) :
    pTx (encMand tx ++ T) =
      match pSigs T with
      | .error e => .error e
      | .ok (sgs, r) =>
        .ok ({ tx with Signature := sgs.1, FeePayerSignature := sgs.2 }, r) := by
  obtain ⟨C, N, K, MP, MF, G, FT, CS, AL, VA, VB, SG, FP⟩ := tx
  simp only [wfTx, Bool.and_eq_true, decide_eq_true_eq, List.all_eq_true] at h
  obtain ⟨h1, h2, h3, h4, h5, h6, h7, h8, h9, h10, h11, h12, h13⟩ := h
  rw [Option.isSome_iff_exists] at h1 h2 h3 h4
  obtain ⟨c, rfl⟩ := h1
  obtain ⟨k0, rfl⟩ := h2
  obtain ⟨mp, rfl⟩ := h3
  obtain ⟨mf, rfl⟩ := h4
  have eC : ∀ r, pNat (encNat c ++ r) = .ok (c, r) := fun r => pNat_enc c r
  have eN : ∀ r, pU64 (encNat N ++ r) = .ok (N, r) := fun r => pU64_enc N r h5
  have eK : ∀ r, pNat (encNat k0 ++ r) = .ok (k0, r) := fun r => pNat_enc k0 r
  have eMP : ∀ r, pNat (encNat mp ++ r) = .ok (mp, r) := fun r => pNat_enc mp r
  have eMF : ∀ r, pNat (encNat mf ++ r) = .ok (mf, r) := fun r => pNat_enc mf r
  have eG : ∀ r, pU64 (encNat G ++ r) = .ok (G, r) := fun r => pU64_enc G r h6
  have eFT : ∀ r, pBytes 20 (FT ++ r) = .ok (FT, r) := fun r => pBytes_enc 20 FT r h9
  have eCS : ∀ r, pList pCall (encList encCall CS ++ r) = .ok (CS, r) :=
    fun r => pList_enc pCall encCall CS r (fun cl hcl rr => pCall_enc cl rr (h10 cl hcl))
  have eAL : ∀ r, pList pAccess (encList encAccess AL ++ r) = .ok (AL, r) :=
    fun r => pList_enc pAccess encAccess AL r (fun al hal rr => pAccess_enc al rr (h11 al hal))
  have eVA : ∀ r, pU64 (encNat VA ++ r) = .ok (VA, r) := fun r => pU64_enc VA r h7
  have eVB : ∀ r, pU64 (encNat VB ++ r) = .ok (VB, r) := fun r => pU64_enc VB r h8
  simp only [encMand, Option.getD_some, List.append_assoc, pTx, pbind, eC, eN, eK,
    eMP, eMF, eG, eFT, eCS, eAL, eVA, eVB]
  rcases pSigs T with e | ⟨sgs, r⟩ <;> rfl

theorem pSigs_nil : pSigs [] = .ok ((none, none), []) := rfl

theorem pSigs_err (s : Bytes) (hs : s ≠ []) (e : TxError) (h : pSig s = .error e) :
    pSigs s = .error e := by
  unfold pSigs
  rw [if_neg hs, h]

theorem pSigs_single (σ : Sig) (h : wfSig σ = true) :
    pSigs (encSig σ) = .ok ((some σ, none), []) := by
  have h1 := pSig_enc σ [] h
  rw [List.append_nil] at h1
  rw [pSigs_cons_ok _ (encSig_ne_nil σ) σ [] h1]
  rfl

theorem encMand_strip (tx : Tx) : encMand (stripSignatures tx) = encMand tx := rfl

theorem encSig_length (σ : Sig) (h : wfSig σ = true) : (encSig σ).length = 65 := by
  obtain ⟨R, S, Y⟩ := σ
  simp only [wfSig, Bool.and_eq_true, decide_eq_true_eq] at h
  obtain ⟨hR, hS, _⟩ := h
  rw [two_pow_256_eq] at hR hS
  simp [encSig, bePad_length 32 R hR, bePad_length 32 S hS]

theorem encodeTx_strip_length (tx : Tx) :
    (encodeTx (stripSignatures tx)).length = (encMand tx).length + 1 := by
  have h2 : (stripSignatures tx).Signature = none := rfl
  have h3 : (stripSignatures tx).FeePayerSignature = none := rfl
  rw [encodeTx, encBody, encMand_strip, h2, h3]
  simp [encOptSig]

theorem wfTx_sig (tx : Tx) (h : wfTx tx = true) (σ : Sig) (hσ : tx.Signature = some σ) :
    wfSig σ = true := by
  unfold wfTx at h
  rw [hσ] at h
  simp only [Bool.and_eq_true] at h
  exact h.2.2.2.2.2.2.2.2.2.2.2.1

theorem wfTx_fsig (tx : Tx) (h : wfTx tx = true) (φ : Sig)
    (hφ : tx.FeePayerSignature = some φ) :
    wfSig φ = true ∧ tx.Signature.isSome = true := by
  unfold wfTx at h
  rw [hφ] at h
  simp only [Bool.and_eq_true] at h
  exact h.2.2.2.2.2.2.2.2.2.2.2.2

theorem decodeTx_take (tx : Tx) (h : wfTx tx = true) (k : Nat) (hk1 : 1 ≤ k)
    (hk2 : k < (encodeTx tx).length) :
    decodeTx ((encodeTx tx).take k) =
      if k = (encodeTx (stripSignatures tx)).length then .ok (stripSignatures tx)
      else if k = (encodeTx (stripSignatures tx)).length + 65 ∧
          tx.FeePayerSignature.isSome = true then .ok (stripFeePayerSignature tx)
      else .error .invalidTransaction := by
  obtain ⟨j, rfl⟩ : ∃ j, k = j + 1 := ⟨k - 1, by omega⟩
  have hSL := encodeTx_strip_length tx
  have hbody : encodeTx tx = txType :: (encMand tx ++
      (encOptSig tx.Signature ++ encOptSig tx.FeePayerSignature)) := rfl
  rw [hbody] at hk2 ⊢
  rw [hSL]
  rw [List.take_succ_cons]
  simp only [decodeTx]
  rw [if_pos trivial]
  simp only [List.length_cons, List.length_append] at hk2
  rcases Nat.lt_or_ge j (encMand tx).length with hjL | hjL
  · rw [List.take_append_of_le_length (Nat.le_of_lt hjL)]
    have hc : pTx ((encMand tx).take j) = .error .invalidTransaction := by
      have hcc := pTx_cut tx h j hjL
      rw [show (encBody tx).take j = (encMand tx).take j from by
        rw [show encBody tx = encMand tx ++
            (encOptSig tx.Signature ++ encOptSig tx.FeePayerSignature) from rfl,
          List.take_append_of_le_length (Nat.le_of_lt hjL)]] at hcc
      exact hcc
    rw [hc, if_neg (by omega), if_neg (by rintro ⟨hh, _⟩; omega)]
  · rw [take_append_ge _ _ _ hjL]
    rcases hSG : tx.Signature with _ | σ
    · rcases hFP : tx.FeePayerSignature with _ | φ
      · exfalso
        rw [hSG, hFP] at hk2
        simp only [encOptSig, List.length_nil] at hk2
        omega
      · exfalso
        have hss := (wfTx_fsig tx h φ hFP).2
        rw [hSG] at hss
        simp at hss
    · have hwσ := wfTx_sig tx h σ hSG
      have hσ65 := encSig_length σ hwσ
      rcases hFP : tx.FeePayerSignature with _ | φ
      · rw [hSG, hFP] at hk2
        simp only [encOptSig, List.append_nil, List.length_nil, hσ65] at hk2
        simp only [encOptSig, List.append_nil]
        rcases eq_or_ne j (encMand tx).length with hj0 | hjne
        · rw [hj0, Nat.sub_self, List.take_zero]
          have hptx : pTx (encMand tx ++ ([] : Bytes)) = .ok (stripSignatures tx, []) := by
            rw [pTx_mand tx h []]
            rfl
          rw [hptx, if_pos (by omega)]
        · have hj65 : j - (encMand tx).length < 65 := by omega
          have hjpos : 1 ≤ j - (encMand tx).length := by omega
          have hne : (encSig σ).take (j - (encMand tx).length) ≠ [] := by
            refine List.length_pos.mp ?_
            rw [List.length_take]
            omega
          have hps : pSigs ((encSig σ).take (j - (encMand tx).length)) =
              .error .invalidTransaction :=
            pSigs_err _ hne _ (pSig_cut σ hwσ _ hj65)
          have hptx : pTx (encMand tx ++ (encSig σ).take (j - (encMand tx).length)) =
              .error .invalidTransaction := by
            rw [pTx_mand tx h _, hps]
          rw [hptx, if_neg (by omega), if_neg (by rintro ⟨_, hb⟩; simp at hb)]
      · have hwφ := (wfTx_fsig tx h φ hFP).1
        have hφ65 := encSig_length φ hwφ
        rw [hSG, hFP] at hk2
        simp only [encOptSig, List.length_append, hσ65, hφ65] at hk2
        simp only [encOptSig]
        rcases eq_or_ne j (encMand tx).length with hj0 | hjne
        · rw [hj0, Nat.sub_self, List.take_zero]
          have hptx : pTx (encMand tx ++ ([] : Bytes)) = .ok (stripSignatures tx, []) := by
            rw [pTx_mand tx h []]
            rfl
          rw [hptx, if_pos (by omega)]
        · rcases Nat.lt_or_ge (j - (encMand tx).length) 65 with hlt | hge
          · have hjpos : 1 ≤ j - (encMand tx).length := by omega
            rw [List.take_append_of_le_length (by omega : j - (encMand tx).length ≤
              (encSig σ).length)]
            have hne : (encSig σ).take (j - (encMand tx).length) ≠ [] := by
              refine List.length_pos.mp ?_
              rw [List.length_take]
              omega
            have hps : pSigs ((encSig σ).take (j - (encMand tx).length)) =
                .error .invalidTransaction :=
              pSigs_err _ hne _ (pSig_cut σ hwσ _ hlt)
            have hptx : pTx (encMand tx ++ (encSig σ).take (j - (encMand tx).length)) =
                .error .invalidTransaction := by
              rw [pTx_mand tx h _, hps]
            rw [hptx, if_neg (by omega), if_neg (by rintro ⟨hh, _⟩; omega)]
          · rcases eq_or_ne (j - (encMand tx).length) 65 with hj65 | hjne65
            · rw [hj65, show (encSig σ ++ encSig φ).take 65 = encSig σ from by
                rw [← hσ65, List.take_left]]
              have hptx : pTx (encMand tx ++ encSig σ) =
                  .ok ({ tx with Signature := some σ, FeePayerSignature := none }, []) := by
                rw [pTx_mand tx h _, pSigs_single σ hwσ]
              rw [hptx, if_neg (by omega), if_pos ⟨by omega, rfl⟩]
              have hfeq : ({ tx with Signature := some σ, FeePayerSignature := none } : Tx) =
                  stripFeePayerSignature tx := by
                rw [← hSG]
                rfl
              rw [hfeq]
            · have hgt : 65 < j - (encMand tx).length := by omega
              rw [take_append_ge _ _ _ (by omega : (encSig σ).length ≤
                j - (encMand tx).length)]
              have hlt2 : j - (encMand tx).length - (encSig σ).length < 65 := by omega
              have hne2 : (encSig φ).take
                  (j - (encMand tx).length - (encSig σ).length) ≠ [] := by
                refine List.length_pos.mp ?_
                rw [List.length_take]
                omega
              have hps : pSigs (encSig σ ++ (encSig φ).take
                  (j - (encMand tx).length - (encSig σ).length)) =
                  .error .invalidTransaction := by
                rw [pSigs_cons_ok _ (fun hh => encSig_ne_nil σ (List.append_eq_nil.mp hh).1)
                  σ _ (pSig_enc σ _ hwσ), if_neg hne2, pSig_cut φ hwφ _ hlt2]
              have hptx : pTx (encMand tx ++ (encSig σ ++ (encSig φ).take
                  (j - (encMand tx).length - (encSig σ).length))) =
                  .error .invalidTransaction := by
                rw [pTx_mand tx h _, hps]
              rw [hptx, if_neg (by omega), if_neg (by rintro ⟨hh, _⟩; omega)]

theorem decodeTx_badType (b : Nat) (r : Bytes) (hb : b ≠ txType) :
    decodeTx (b :: r) = .error .invalidTransactionType := by
  simp only [decodeTx]
  rw [if_neg hb]

theorem pNat_overlong (L : Nat) (r : Bytes) (h : r.length < L) :
    pNat (L :: r) = .error .invalidTransaction := by
  simp only [pNat]
  rw [if_neg (by omega)]

theorem pNat_nonminimal (L : Nat) (r : Bytes) (hL : L ≤ r.length)
    (h : (r.take L).head? = some 0) :
    pNat (L :: r) = .error .invalidTransaction := by
  simp only [pNat]
  rw [if_pos hL, if_pos h]

theorem pU64_range (n : Nat) (rest : Bytes) (h : 2 ^ 64 ≤ n) :
    pU64 (encNat n ++ rest) = .error .invalidTransaction := by
  unfold pU64
  rw [pNat_enc]
  show (if n < 2 ^ 64 then (Except.ok (n, rest) : Except TxError (Nat × Bytes))
    else .error .invalidTransaction) = .error .invalidTransaction
  rw [if_neg (by omega)]

theorem decodeTx_pTx_err (X : Bytes) (e : TxError) (h : pTx X = .error e) :
    decodeTx (txType :: X) = .error e := by
  simp only [decodeTx]
  rw [if_pos trivial, h]

theorem pTx_first_field_err (X : Bytes) (h : pNat X = .error .invalidTransaction) :
    pTx X = .error .invalidTransaction := by
  unfold pTx
  rw [pbind_err _ h]

theorem pTx_nonce_range (c n : Nat) (rest : Bytes) (h : 2 ^ 64 ≤ n) :
    pTx (encNat c ++ (encNat n ++ rest)) = .error .invalidTransaction := by
  have e1 : ∀ r', pNat (encNat c ++ r') = .ok (c, r') := fun r' => pNat_enc c r'
  have e2 : pU64 (encNat n ++ rest) = .error .invalidTransaction := pU64_range n rest h
  simp only [pTx, pbind, e1, e2]

/-! ### Builder chain lemmas -/

theorem bop_commute (o1 o2 : BOp) (hne : o1.field ≠ o2.field) (b : Builder) :
    o2.app (o1.app b) = o1.app (o2.app b) := by
  cases o1 <;> cases o2 <;> first
    | rfl
    | exact absurd rfl hne

theorem bop_overwrite (o1 o2 : BOp) (hf : o1.field = o2.field) (hset : o1.isSet = true)
    (b : Builder) : o2.app (o1.app b) = o2.app b := by
  cases o1 <;> cases o2 <;> first
    | rfl
    | simp_all [BOp.field, BOp.isSet]

theorem runOps_perm (ops1 ops2 : List BOp) (hp : ops1.Perm ops2) :
    ops1.Pairwise (fun a b => a.field ≠ b.field) → ∀ b, runOps ops1 b = runOps ops2 b := by
  induction hp with
  | nil =>
    intro _ b
    rfl
  | cons x p ih =>
    intro hnd b
    rw [List.pairwise_cons] at hnd
    show runOps _ (x.app b) = runOps _ (x.app b)
    exact ih hnd.2 (x.app b)
  | swap x y l =>
    intro hnd b
    rw [List.pairwise_cons] at hnd
    have hxy : y.field ≠ x.field := hnd.1 x (by simp)
    show runOps l (x.app (y.app b)) = runOps l (y.app (x.app b))
    rw [bop_commute y x hxy b]
  | trans p1 p2 ih1 ih2 =>
    intro hnd b
    rw [ih1 hnd b, ih2 ((List.Perm.pairwise_iff (fun hne => Ne.symm hne) p1).mp hnd) b]

theorem validate_error_kind (tx : Tx) (e : TxError) :
    Validate tx = .error e → e = .invalidTransaction := by
  intro h
  unfold Validate at h
  split at h
  · injection h with h; exact h.symm
  · split at h
    · injection h with h; exact h.symm
    · split at h
      · injection h with h; exact h.symm
      · split at h
        · injection h with h; exact h.symm
        · split at h
          · injection h with h; exact h.symm
          · split at h
            · injection h with h; exact h.symm
            · injection h

theorem validate_ok_iff (tx : Tx) :
    Validate tx = .ok () ↔
      (∃ c, tx.ChainID = some c ∧ 0 < c) ∧ 0 < tx.Gas ∧ tx.Calls ≠ [] ∧
        (∀ cl ∈ tx.Calls, cl.Value ≠ none) ∧ tx.NonceKey ≠ none := by
  constructor
  · intro h
    unfold Validate at h
    split at h
    · injection h
    · rename_i c hc
      split at h
      · injection h
      split at h
      · injection h
      split at h
      · injection h
      split at h
      · injection h
      split at h
      · injection h
      rename_i h1 h2 h3 h4 h5
      refine ⟨⟨c, hc, Nat.pos_of_ne_zero h1⟩, Nat.pos_of_ne_zero h2, h3, ?_, h5⟩
      intro cl hcl hv
      simp only [List.any_eq_true, decide_eq_true_eq] at h4
      exact h4 ⟨cl, hcl, hv⟩
  · rintro ⟨⟨c, hc, hcpos⟩, hgas, hcalls, hvals, hnk⟩
    have hany : (tx.Calls.any fun cl => decide (cl.Value = none)) = false := by
      rw [List.any_eq_false]
      intro cl hcl
      simpa using hvals cl hcl
    simp only [Validate, hc]
    rw [if_neg (Nat.pos_iff_ne_zero.mp hcpos), if_neg (Nat.pos_iff_ne_zero.mp hgas),
      if_neg hcalls, if_neg (by simp [hany]), if_neg hnk]

/-! ## Claim theorems -/

/-- C1 (counterexample to the claim as stated): the round-trip law does
not hold for unsigned transactions, because `Serialize` requires a
sender signature: on the concrete well-formed unsigned transaction
`exTxU`, `Serialize` fails with `NoSignature`, so
`Deserialize (Serialize exTxU)` cannot reproduce `exTxU`. -/
theorem serialize_unsigned_fails :
    wfTx exTxU = true ∧ exTxU.Signature = none ∧
      (Serialize exTxU).bind Deserialize = .error .noSignature := by
  refine ⟨by decide, rfl, rfl⟩

/-- C1 (amended): for every structurally well-formed transaction with a
sender signature present (with or without a fee-payer signature, with
any number of calls and access-list entries),
`Deserialize (Serialize tx)` reproduces `tx` field-for-field (absent
optional fields are distinguished from zero-valued ones since they are
reproduced exactly); and the codec encoding is injective on all
well-formed transactions, signed or unsigned. -/
theorem serialize_roundtrip_injective :
    (∀ tx, wfTx tx = true → tx.Signature.isSome = true →
      (Serialize tx).bind Deserialize = .ok tx) ∧
    (∀ t1 t2, wfTx t1 = true → wfTx t2 = true → encodeTx t1 = encodeTx t2 → t1 = t2) := by
  constructor
  · intro tx hwf hsig
    obtain ⟨σ, hσ⟩ := Option.isSome_iff_exists.mp hsig
    unfold Serialize
    rw [hσ]
    show Deserialize (encodeTx tx) = .ok tx
    exact decode_encode tx hwf
  · exact fun t1 t2 h1 h2 h => encode_injective t1 t2 h1 h2 h

/-- C1 witness: the amended round trip evaluated on the concrete
dual-signed transaction `exTxD`. -/
theorem serialize_roundtrip_injective_witness :
    (Serialize exTxD).bind Deserialize = .ok exTxD :=
  serialize_roundtrip_injective.1 exTxD (by decide) rfl

/-- C2: `Validate` fails always with the single error kind
`InvalidTransaction`, and succeeds exactly when `chainID` is present
and positive, `gas` is non-zero, `calls` is non-empty with every
call value present, and `nonceKey` is present (the checks being wired
in that fixed order in the definition of `Validate`). -/
theorem validate_spec :
    (∀ tx e, Validate tx = .error e → e = .invalidTransaction) ∧
    (∀ tx, Validate tx = .ok () ↔
      (∃ c, tx.ChainID = some c ∧ 0 < c) ∧ 0 < tx.Gas ∧ tx.Calls ≠ [] ∧
        (∀ cl ∈ tx.Calls, cl.Value ≠ none) ∧ tx.NonceKey ≠ none) :=
  ⟨fun tx e h => validate_error_kind tx e h, fun tx => validate_ok_iff tx⟩

/-- C2 witness: the success direction evaluated on the concrete
transaction `exTxU`, and the error-kind direction on the empty builder
transaction. -/
theorem validate_spec_witness :
    Validate exTxU = .ok () ∧ TxError.invalidTransaction = .invalidTransaction :=
  ⟨(validate_spec.2 exTxU).mpr
      ⟨⟨42424, rfl, by decide⟩, by decide, by decide, by decide, by decide⟩,
    validate_spec.1 (NewBuilder (some 1)).tx .invalidTransaction rfl⟩

/-- C3: `SigningHash` digests the codec encoding of the transaction
with both optional signature fields absent, and is therefore unchanged
by whatever signatures are currently set; in particular attaching a
fee-payer signature does not change the payload the sender signed. -/
theorem signingHash_spec :
    (∀ digest : Bytes → Bytes, ∀ tx, SigningHash digest tx =
      digest (encodeTx { tx with Signature := none, FeePayerSignature := none })) ∧
    (∀ digest : Bytes → Bytes, ∀ tx sg fp,
      SigningHash digest { tx with Signature := sg, FeePayerSignature := fp } =
        SigningHash digest tx) ∧
    (∀ digest : Bytes → Bytes, ∀ tx φ,
      SigningHash digest { tx with FeePayerSignature := some φ } =
        SigningHash digest tx) :=
  ⟨fun _ _ => rfl, fun _ _ _ _ => rfl, fun _ _ _ => rfl⟩

/-- C4: `AddFeePayerSignature` fails with `MissingSenderSignature`
exactly when the sender signature is absent; when it is present, it
succeeds, signs the digest of the encoding that includes the sender
signature but excludes the fee-payer signature, sets the fee-payer
signature to that value, and leaves the sender signature unchanged. -/
theorem addFeePayerSignature_spec :
    (∀ digest : Bytes → Bytes, ∀ sign : Bytes → Sig, ∀ tx, tx.Signature = none →
      AddFeePayerSignature digest sign tx = .error .missingSenderSignature) ∧
    (∀ digest : Bytes → Bytes, ∀ sign : Bytes → Sig, ∀ tx σ, tx.Signature = some σ →
      AddFeePayerSignature digest sign tx = .ok { tx with FeePayerSignature := some (sign (digest (encodeTx (stripFeePayerSignature tx)))) } ∧
      ∀ tx', AddFeePayerSignature digest sign tx = .ok tx' →
        tx'.Signature = some σ ∧ tx'.FeePayerSignature =
          some (sign (digest (encodeTx (stripFeePayerSignature tx))))) := by
  constructor
  · intro digest sign tx h
    unfold AddFeePayerSignature
    rw [h]
  · intro digest sign tx σ h
    have heq : AddFeePayerSignature digest sign tx = .ok { tx with FeePayerSignature := some (sign (digest (encodeTx (stripFeePayerSignature tx)))) } := by
      unfold AddFeePayerSignature
      rw [h]
    refine ⟨heq, ?_⟩
    intro tx' htx'
    rw [heq] at htx'
    injection htx' with htx'
    subst htx'
    exact ⟨h, rfl⟩

/-- C4 witness: both branches evaluated concretely, on the unsigned
`exTxU` (failure) and on the sender-signed `exTxS` (success with the
sender signature untouched). -/
theorem addFeePayerSignature_spec_witness :
    AddFeePayerSignature id (fun _ => exZeroSig) exTxU = .error .missingSenderSignature ∧
    AddFeePayerSignature id (fun _ => exZeroSig) exTxS =
      .ok { exTxS with FeePayerSignature := some exZeroSig } :=
  ⟨addFeePayerSignature_spec.1 id (fun _ => exZeroSig) exTxU rfl,
    (addFeePayerSignature_spec.2 id (fun _ => exZeroSig) exTxS exSig rfl).1⟩

/-- C5 (counterexample to the claim as stated): truncation does not
always fail: truncating the concrete signed encoding exactly at the
start of the optional trailing signature section decodes successfully
(to the unsigned transaction), because signature presence is indicated
only by trailing bytes. -/
theorem decode_truncation_boundary_ok :
    (encodeTx exTxU).length < (encodeTx exTxS).length ∧
    decodeTx ((encodeTx exTxS).take (encodeTx exTxU).length) = .ok exTxU := by
  refine ⟨by decide, rfl⟩

/-- C5 (amended): decoding fails with `InvalidTransactionType` whenever
the leading byte is not `0x76`; decoding a proper truncation of a
well-formed encoding fails with `InvalidTransaction`, except when the
truncation point is exactly the start of an optional trailing
signature section, in which case it succeeds with the remaining
signatures absent; decoding a full encoding reconstructs the sender
and fee-payer signatures exactly when they were present, so an absent
signature is distinguishable from a zero-valued one; a malformed
length prefix — one that overruns the remaining input, or one whose
integer payload carries a non-minimal leading zero — is rejected with
`InvalidTransaction`; and an out-of-range integer — a 64-bit field
whose encoded value is at least `2 ^ 64` — is rejected with
`InvalidTransaction`. -/
theorem decode_error_spec :
    (∀ b r, b ≠ txType → decodeTx (b :: r) = .error .invalidTransactionType) ∧
    (∀ tx k, wfTx tx = true → 1 ≤ k → k < (encodeTx tx).length →
      decodeTx ((encodeTx tx).take k) =
        if k = (encodeTx (stripSignatures tx)).length then .ok (stripSignatures tx)
        else if k = (encodeTx (stripSignatures tx)).length + 65 ∧
            tx.FeePayerSignature.isSome = true then .ok (stripFeePayerSignature tx)
        else .error .invalidTransaction) ∧
    (∀ tx tx', wfTx tx = true → decodeTx (encodeTx tx) = .ok tx' →
      tx'.Signature = tx.Signature ∧ tx'.FeePayerSignature = tx.FeePayerSignature) ∧
    (∀ L r, r.length < L → decodeTx (txType :: L :: r) = .error .invalidTransaction) ∧
    (∀ L r, L ≤ r.length → (r.take L).head? = some 0 →
      decodeTx (txType :: L :: r) = .error .invalidTransaction) ∧
    (∀ c n rest, 2 ^ 64 ≤ n →
      decodeTx (txType :: (encNat c ++ (encNat n ++ rest))) =
        .error .invalidTransaction) := by
  refine ⟨fun b r hb => decodeTx_badType b r hb,
    fun tx k h hk1 hk2 => decodeTx_take tx h k hk1 hk2, ?_,
    fun L r h => decodeTx_pTx_err _ _ (pTx_first_field_err _ (pNat_overlong L r h)),
    fun L r hL h => decodeTx_pTx_err _ _ (pTx_first_field_err _ (pNat_nonminimal L r hL h)),
    fun c n rest h => decodeTx_pTx_err _ _ (pTx_nonce_range c n rest h)⟩
  intro tx tx' hwf hdec
  rw [decode_encode tx hwf] at hdec
  injection hdec with hdec
  subst hdec
  exact ⟨rfl, rfl⟩

/-- C5 witness: the amended claim evaluated concretely: a wrong leading
byte is rejected with `InvalidTransactionType`; an interior truncation
of the signed encoding, a length prefix overrunning the input, a
non-minimal (leading-zero) integer payload, and an out-of-range 64-bit
nonce are each rejected with `InvalidTransaction`. -/
theorem decode_error_spec_witness :
    decodeTx (19 :: []) = .error .invalidTransactionType ∧
    decodeTx ((encodeTx exTxS).take 50) = .error .invalidTransaction ∧
    decodeTx (txType :: 5 :: [1, 2]) = .error .invalidTransaction ∧
    decodeTx (txType :: 2 :: [0, 7]) = .error .invalidTransaction ∧
    decodeTx (txType :: (encNat 1 ++ (encNat (2 ^ 64) ++ []))) =
      .error .invalidTransaction := by
  refine ⟨decode_error_spec.1 19 [] (by decide), ?_,
    decode_error_spec.2.2.2.1 5 [1, 2] (by decide),
    decode_error_spec.2.2.2.2.1 2 [0, 7] (by decide) (by decide),
    decode_error_spec.2.2.2.2.2 1 (2 ^ 64) [] (by decide)⟩
  have h := decode_error_spec.2.1 exTxS 50 (by decide) (by decide) (by decide)
  rw [h]
  rfl

/-- C6: `AddCall` appends exactly one call whose target is always
present, whose value defaults to zero when the argument is nil, and
whose data defaults to the empty byte string when nil;
`AddContractCreation` appends one call with absent target under the
same defaulting. -/
theorem addCall_defaulting_spec :
    (∀ b toAddr v d, (AddCall b toAddr v d).tx.Calls = b.tx.Calls ++
      [{ To := some toAddr, Value := some (v.getD 0), Data := d.getD [] }]) ∧
    (∀ b v d, (AddContractCreation b v d).tx.Calls = b.tx.Calls ++
      [{ To := none, Value := some (v.getD 0), Data := d.getD [] }]) ∧
    (∀ b toAddr, (AddCall b toAddr none none).tx.Calls = b.tx.Calls ++
      [{ To := some toAddr, Value := some 0, Data := [] }]) ∧
    (∀ b, (AddContractCreation b none none).tx.Calls = b.tx.Calls ++
      [{ To := none, Value := some 0, Data := [] }]) :=
  ⟨fun _ _ _ _ => rfl, fun _ _ _ => rfl, fun _ _ => rfl, fun _ => rfl⟩

/-- C7: `NewBuilder` fixes the chain ID to the given value and
initializes both fee fields to zero and the nonce key to the
documented default constant. -/
theorem newBuilder_spec :
    ∀ chainID, (NewBuilder chainID).tx.ChainID = chainID ∧
      (NewBuilder chainID).tx.MaxPriorityFeePerGas = some 0 ∧
      (NewBuilder chainID).tx.MaxFeePerGas = some 0 ∧
      (NewBuilder chainID).tx.NonceKey = some DefaultNonceKey :=
  fun _ => ⟨rfl, rfl, rfl, rfl⟩

/-- C8: `BuildAndValidate` runs the validator on the accumulated
transaction; on failure it propagates the error, which is always of
kind `InvalidTransaction`, and returns no transaction; on success it
returns the accumulated transaction. -/
theorem buildAndValidate_spec :
    ∀ b : Builder,
      (∀ e, Validate b.tx = .error e →
        BuildAndValidate b = .error e ∧ e = .invalidTransaction) ∧
      (Validate b.tx = .ok () → BuildAndValidate b = .ok (Build b)) ∧
      (∀ tx, BuildAndValidate b = .ok tx → tx = Build b) := by
  intro b
  refine ⟨?_, ?_, ?_⟩
  · intro e h
    refine ⟨?_, validate_error_kind b.tx e h⟩
    unfold BuildAndValidate
    rw [h]
  · intro h
    unfold BuildAndValidate
    rw [h]
    rfl
  · intro tx h
    unfold BuildAndValidate at h
    cases hv : Validate b.tx with
    | error e =>
      rw [hv] at h
      injection h
    | ok u =>
      cases u
      rw [hv] at h
      injection h with h
      exact h.symm

/-- C8 witness: the success branch on a valid builder chain and the
failure branch on the empty builder. -/
theorem buildAndValidate_spec_witness :
    BuildAndValidate exGoodBuilder = .ok (Build exGoodBuilder) ∧
    BuildAndValidate (NewBuilder (some 42424)) = .error .invalidTransaction :=
  ⟨(buildAndValidate_spec exGoodBuilder).2.1 rfl,
    ((buildAndValidate_spec (NewBuilder (some 42424))).1 .invalidTransaction rfl).1⟩

/-- C9: builder method calls writing pairwise distinct transaction
fields can be applied in any order with the same resulting
transaction, and a second call to a `Set*` method on the same field
overwrites the first (last write wins).  Each setter is a pure state
update on the held transaction and performs no validation (`Validate`
appears nowhere in their definitions). -/
theorem builder_order_independence_spec :
    (∀ ops1 ops2 : List BOp, ops1.Perm ops2 →
      ops1.Pairwise (fun a b => a.field ≠ b.field) →
      ∀ b, runOps ops1 b = runOps ops2 b) ∧
    (∀ o1 o2 : BOp, o1.field = o2.field → o1.isSet = true →
      ∀ b, o2.app (o1.app b) = o2.app b) :=
  ⟨fun ops1 ops2 hp hnd b => runOps_perm ops1 ops2 hp hnd b,
    fun o1 o2 hf hset b => bop_overwrite o1 o2 hf hset b⟩

/-- C9 witness: a concrete permuted chain produces the identical
transaction, and a repeated `SetGas` follows last-write-wins. -/
theorem builder_order_independence_spec_witness :
    runOps [.setGas 100000, .setNonce 5, .addCall (List.replicate 20 7) (some 500) none]
      (NewBuilder (some 42424)) =
    runOps [.addCall (List.replicate 20 7) (some 500) none, .setGas 100000, .setNonce 5]
      (NewBuilder (some 42424)) ∧
    (BOp.setGas 9).app ((BOp.setGas 5).app (NewBuilder (some 1))) =
      (BOp.setGas 9).app (NewBuilder (some 1)) :=
  ⟨builder_order_independence_spec.1 _ _ (by decide) (by decide) (NewBuilder (some 42424)),
    builder_order_independence_spec.2 (BOp.setGas 5) (BOp.setGas 9) rfl rfl
      (NewBuilder (some 1))⟩

/-- C10: the big-integer setters store their argument exactly as
given, with no nil-defaulting, so passing nil overwrites the defaults
installed by `NewBuilder` with the absent sentinel; in particular
after `SetNonceKey nil` the held transaction has a nil nonce key and
`BuildAndValidate` fails with `InvalidTransaction`. -/
theorem bigint_setters_spec :
    (∀ b v, (SetNonceKey b v).tx.NonceKey = v) ∧
    (∀ b v, (SetMaxFeePerGas b v).tx.MaxFeePerGas = v) ∧
    (∀ b v, (SetMaxPriorityFeePerGas b v).tx.MaxPriorityFeePerGas = v) ∧
    (∀ chainID, (NewBuilder chainID).tx.NonceKey = some DefaultNonceKey ∧
      (SetNonceKey (NewBuilder chainID) none).tx.NonceKey = none ∧
      (SetMaxFeePerGas (NewBuilder chainID) none).tx.MaxFeePerGas = none) ∧
    (∀ b, BuildAndValidate (SetNonceKey b none) = .error .invalidTransaction) := by
  refine ⟨fun _ _ => rfl, fun _ _ => rfl, fun _ _ => rfl, fun _ => ⟨rfl, rfl, rfl⟩, ?_⟩
  intro b
  have hne : Validate (SetNonceKey b none).tx ≠ .ok () := by
    intro hok
    rw [validate_ok_iff] at hok
    obtain ⟨_, _, _, _, hnk⟩ := hok
    exact hnk rfl
  cases hv : Validate (SetNonceKey b none).tx with
  | ok u =>
    cases u
    exact absurd hv hne
  | error e =>
    have he := validate_error_kind _ e hv
    subst he
    unfold BuildAndValidate
    rw [hv]



end Tempo
